import Mathlib

/-!
Shallow embedding of the GemQuest game logic (src/main.c) and proofs about
the spec's claims.  Positions are modelled as exact rationals (the movement
and normalization step, which uses square roots and trigonometry, as reals),
grid indices as integers, and the C `roundf` as round-half-away-from-zero.
Fallible operations (the lookups that may terminate the process, and reads
that in C would be out-of-bounds array accesses) return an explicit result
type.
-/

namespace GemQuest

/-- The field kinds of the grid, mirroring the C enum `Field`. -/
inductive Field where
  | Init
  | Arch
  | Tile
  | Wall
  | Item
  | Goal
deriving DecidableEq, Repr, BEq

/-- The numeric value of each enum constant in the C source
(`Init = -2, Arch = -1, Tile = 0, Wall = 1, Item = 2, Goal = 3`). -/
def Field.ordinal : Field → Int
  | .Init => -2
  | .Arch => -1
  | .Tile => 0
  | .Wall => 1
  | .Item => 2
  | .Goal => 3

/-- The states of the quest item, mirroring the C enum `ItemState`. -/
inductive ItemState where
  | Initial
  | Held
  | Dropped
deriving DecidableEq, Repr, BEq

/-- `mapWidth` from the C source. -/
def mapWidth : Int := 15

/-- `mapDepth` from the C source. -/
def mapDepth : Int := 11

/-- The embedded grid `map[]` from the C source (with `BORING_MODE`
undefined, as in the shipped code), laid out x-major: row `x` holds the 11
entries `map[x*11+0] .. map[x*11+10]`. -/
def gameMap : List Field :=
  [Field.Wall, Field.Wall, Field.Wall, Field.Wall, Field.Wall, Field.Wall, Field.Wall, Field.Wall, Field.Wall, Field.Wall, Field.Wall,
   Field.Wall, Field.Tile, Field.Tile, Field.Tile, Field.Tile, Field.Wall, Field.Tile, Field.Tile, Field.Tile, Field.Tile, Field.Wall,
   Field.Wall, Field.Tile, Field.Wall, Field.Wall, Field.Wall, Field.Wall, Field.Wall, Field.Wall, Field.Wall, Field.Tile, Field.Wall,
   Field.Wall, Field.Tile, Field.Tile, Field.Tile, Field.Tile, Field.Tile, Field.Tile, Field.Tile, Field.Wall, Field.Tile, Field.Wall,
   Field.Wall, Field.Wall, Field.Wall, Field.Wall, Field.Wall, Field.Tile, Field.Wall, Field.Wall, Field.Wall, Field.Tile, Field.Wall,
   Field.Wall, Field.Tile, Field.Goal, Field.Tile, Field.Wall, Field.Tile, Field.Wall, Field.Tile, Field.Wall, Field.Tile, Field.Wall,
   Field.Wall, Field.Tile, Field.Tile, Field.Tile, Field.Wall, Field.Tile, Field.Wall, Field.Tile, Field.Tile, Field.Tile, Field.Wall,
   Field.Wall, Field.Init, Field.Tile, Field.Tile, Field.Arch, Field.Tile, Field.Wall, Field.Tile, Field.Wall, Field.Tile, Field.Wall,
   Field.Wall, Field.Tile, Field.Tile, Field.Tile, Field.Wall, Field.Tile, Field.Tile, Field.Tile, Field.Wall, Field.Tile, Field.Wall,
   Field.Wall, Field.Tile, Field.Tile, Field.Tile, Field.Wall, Field.Wall, Field.Wall, Field.Wall, Field.Wall, Field.Tile, Field.Wall,
   Field.Wall, Field.Wall, Field.Wall, Field.Wall, Field.Wall, Field.Tile, Field.Tile, Field.Tile, Field.Tile, Field.Tile, Field.Wall,
   Field.Wall, Field.Tile, Field.Tile, Field.Tile, Field.Tile, Field.Tile, Field.Wall, Field.Wall, Field.Wall, Field.Wall, Field.Wall,
   Field.Wall, Field.Tile, Field.Wall, Field.Wall, Field.Wall, Field.Wall, Field.Wall, Field.Tile, Field.Tile, Field.Item, Field.Wall,
   Field.Wall, Field.Tile, Field.Tile, Field.Tile, Field.Tile, Field.Tile, Field.Tile, Field.Tile, Field.Wall, Field.Wall, Field.Wall,
   Field.Wall, Field.Wall, Field.Wall, Field.Wall, Field.Wall, Field.Wall, Field.Wall, Field.Wall, Field.Wall, Field.Wall, Field.Wall]

/-- Result of a field lookup: a field value, process termination via
`Common_terminate`, or an out-of-bounds array read (undefined behaviour in
the C source, about which no guarantee is modelled). -/
inductive FieldResult where
  | ok (f : Field)
  | terminated
  | ubRead
deriving DecidableEq, Repr, BEq

/-- The raw array access `map[idx]`: an in-range index yields the stored
field, any other index is an out-of-bounds read. -/
def readMapFlat (idx : Int) : FieldResult :=
  if idx < 0 then .ubRead
  else
    match gameMap.get? idx.toNat with
    | some f => .ok f
    | none => .ubRead

/-- `Game_getMapFieldByIndicies` from the C source: the guard is the exact
condition written there (`x < 0 || x > mapWidth || z < 0 || z > mapDepth`,
note `>` rather than `>=`), then `map[x * mapDepth + z]` is read. -/
def Game_getMapFieldByIndicies (x z : Int) : FieldResult :=
  if x < 0 ∨ x > mapWidth ∨ z < 0 ∨ z > mapDepth then .terminated
  else readMapFlat (x * mapDepth + z)

/-- The C `roundf`: round to nearest, ties away from zero. -/
def roundq (q : ℚ) : Int :=
  if 0 ≤ q then (q + 1/2).floor else -((-q + 1/2).floor)

/-- `Game_getMapFieldIndiciesByPosition` from the C source. -/
def Game_getMapFieldIndiciesByPosition (x z : ℚ) : Int × Int :=
  (roundq x, roundq z)

/-- `Game_getMapFieldPositionByIndicies` from the C source: the identity
cast of indices to world coordinates. -/
def Game_getMapFieldPositionByIndicies (ix iz : Int) : ℚ × ℚ :=
  ((ix : ℚ), (iz : ℚ))

/-- `Game_getMapFieldByPosition` from the C source: rounds the coordinates
and reads `map[indexX * mapDepth + indexZ]` directly, with no bounds check
and no call to `Game_getMapFieldByIndicies`. -/
def Game_getMapFieldByPosition (x z : ℚ) : FieldResult :=
  let c := Game_getMapFieldIndiciesByPosition x z
  readMapFlat (c.1 * mapDepth + c.2)

/-- The C macro `MIN(a,b) = ((a)<(b))?(a):(b)`. -/
def cMIN (a b : ℚ) : ℚ := if a < b then a else b

/-- The C macro `MAX(a,b) = ((a)>(b))?(a):(b)`. -/
def cMAX (a b : ℚ) : ℚ := if a > b then a else b

/-- The collision-checked horizontal resolution of `Game_onUpdate`
(src/main.c lines 2212-2228): the candidate position is the current
position plus the horizontal acceleration; a lookup at the candidate
decides between committing it and bouncing back with inverted
acceleration.  Result: `(playerX, playerZ, accX, accZ)` after the step,
or `none` if the unchecked field lookup was an out-of-bounds read. -/
def collisionStep (x z ax az : ℚ) : Option (ℚ × ℚ × ℚ × ℚ) :=
  let newPlayerX := x + ax
  let newPlayerZ := z + az
  match Game_getMapFieldByPosition newPlayerX newPlayerZ with
  | .ok f =>
      if f.ordinal ≤ 0 then some (newPlayerX, newPlayerZ, ax, az)
      else some (x + -ax, z + -az, -ax, -az)
  | _ => none

/-- The nine probed cells of the interaction step of `Game_onUpdate`
(src/main.c lines 2241-2245), in loop order: `probeFieldX` outer from
`ix-1` to `ix+1`, `probeFieldZ` inner from `iz-1` to `iz+1`. -/
def probeList (ix iz : Int) : List (Int × Int) :=
  [(ix - 1, iz - 1), (ix - 1, iz), (ix - 1, iz + 1),
   (ix, iz - 1), (ix, iz), (ix, iz + 1),
   (ix + 1, iz - 1), (ix + 1, iz), (ix + 1, iz + 1)]

/-- One probe of the interaction step (src/main.c lines 2250-2253). -/
def probeTransition (s : ItemState) (f : Field) : ItemState :=
  if f = Field.Item ∧ s = ItemState.Initial then ItemState.Held
  else if f = Field.Goal ∧ s = ItemState.Held then ItemState.Dropped
  else s

/-- Folds the probes of the interaction step over the item state, in probe
order; `none` if some probe terminated the process or read out of bounds. -/
def probeAll (s : ItemState) : List (Int × Int) → Option ItemState
  | [] => some s
  | p :: ps =>
    match Game_getMapFieldByIndicies p.1 p.2 with
    | .ok f => probeAll (probeTransition s f) ps
    | _ => none

/-- The interaction step of `Game_onUpdate` for a player whose rounded
cell is `(ix, iz)`, with the interact input active. -/
def interactionStep (s : ItemState) (ix iz : Int) : Option ItemState :=
  probeAll s (probeList ix iz)

/-- The interaction step applied at an exact player position, using the
same `Game_getMapFieldIndiciesByPosition` call as the C code
(src/main.c lines 2237-2239). -/
def interactionTick (s : ItemState) (x z : ℚ) : Option ItemState :=
  let c := Game_getMapFieldIndiciesByPosition x z
  interactionStep s c.1 c.2

/-- Whether some probed cell of the 3x3 block around `(ix, iz)` holds the
field `g` (all probes read through `Game_getMapFieldByIndicies`). -/
def blockHasField (g : Field) (ix iz : Int) : Bool :=
  (probeList ix iz).any fun p =>
    match Game_getMapFieldByIndicies p.1 p.2 with
    | .ok f => decide (f = g)
    | _ => false

/-- Progress rank of the item state: `Initial < Held < Dropped`. -/
def ItemState.rank : ItemState → Nat
  | .Initial => 0
  | .Held => 1
  | .Dropped => 2

/-- The item-state part of one tick: the interaction step runs exactly
when the interact input is active (src/main.c line 2235). -/
def tickItem (act : Bool) (ix iz : Int) (s : ItemState) : Option ItemState :=
  if act then interactionStep s ix iz else some s

/-- Runs the item-state part of a sequence of ticks, each given by the
interact flag and the player's rounded cell for that tick. -/
def runItemTicks : List (Bool × Int × Int) → ItemState → Option ItemState
  | [], s => some s
  | (act, ix, iz) :: rest, s =>
    match tickItem act ix iz s with
    | some s2 => runItemTicks rest s2
    | none => none

/-- `FADEOUT_SPEED` from the C source (0.5 per second). -/
def FADEOUT_SPEED : ℚ := 1/2

/-- The brightness update at the top of `Game_onUpdate`
(src/main.c lines 2106-2117), reading the item state of the current tick:
in `Initial`, ramp toward 1 clamped by the `MIN` macro; in `Held`, leave
the brightness alone; in `Dropped`, decrement without a lower clamp while
positive, and end the session (`Game_onDestroy`) once it is not. -/
def brightnessStep (s : ItemState) (b δ : ℚ) : Option ℚ :=
  match s with
  | .Initial => some (if b < 1 then cMIN 1 (b + FADEOUT_SPEED * δ) else b)
  | .Held => some b
  | .Dropped => if b > 0 then some (b - FADEOUT_SPEED * δ) else none

/-- Input of one simulation tick, as far as the brightness and item state
are concerned: the interact flag, the player's rounded cell, and the
elapsed `deltaSeconds`. -/
structure TickInput where
  act : Bool
  ix : Int
  iz : Int
  delta : ℚ
deriving DecidableEq, Repr

/-- The brightness/item-state part of one `Game_onUpdate` tick, in source
order: the brightness update runs first and reads the tick's incoming item
state; the interaction step at the end may then advance the item state. -/
def gameTick (inp : TickInput) (st : ItemState × ℚ) : Option (ItemState × ℚ) :=
  match brightnessStep st.1 st.2 inp.delta with
  | some b2 =>
    match tickItem inp.act inp.ix inp.iz st.1 with
    | some s2 => some (s2, b2)
    | none => none
  | none => none

/-- Runs a sequence of ticks from a given item state and brightness. -/
def runGame : List TickInput → ItemState × ℚ → Option (ItemState × ℚ)
  | [], st => some st
  | inp :: rest, st =>
    match gameTick inp st with
    | some st2 => runGame rest st2
    | none => none

/-- The sum of the `deltaSeconds` of a tick sequence. -/
def sumDeltas (l : List TickInput) : ℚ := (l.map (fun i => i.delta)).sum

/-!  Load-time validation (`Game_onLoad`, src/main.c lines 1856-1879),
parametrised by the grid, its width and its depth.  The search loop scans
`spawnX` x-major, `spawnZ` inner, and stops at the first `Init` cell; the
post-loop decrement compensation in the C code makes the recorded indices
exactly those of that first hit. -/

/-- The cells scanned by the spawn-search loop, in loop order. -/
def gridCells (w d : Nat) : List (Nat × Nat) :=
  (List.range w).flatMap fun x => (List.range d).map fun z => (x, z)

/-- The first `Init` cell in scan order, if any. -/
def firstSpawn (w d : Nat) (grid : List Field) : Option (Nat × Nat) :=
  (gridCells w d).find? fun p => decide (grid.get? (p.1 * d + p.2) = some Field.Init)

/-- The load-time validation of `Game_onLoad`: rejects a grid whose length
is not `w * d`, then searches for a spawn point and rejects the grid when
none exists; on success the returned cell is where the player is placed
(via the identity `Game_getMapFieldPositionByIndicies`). -/
def Game_onLoad_validate (w d : Nat) (grid : List Field) : Option (Nat × Nat) :=
  if grid.length ≠ w * d then none
  else
    match firstSpawn w d grid with
    | some p => some p
    | none => none

/-- A tick of 30 ms with no interact input, used for the fade-in timing
claims. -/
def tick003 : TickInput := ⟨false, 0, 0, 3/100⟩

/-- Two idle one-second ticks: an interact-free sequence whose deltas sum
to 2 seconds. -/
def c3idle : List TickInput := [⟨false, 0, 0, 1⟩, ⟨false, 0, 0, 1⟩]

/-- A full play-through: fade in over four half-second ticks, pick the item
up at cell (12,9), drop it at the goal cell (5,2), then fade out with
0.3-second ticks until the brightness crosses zero. -/
def c3trace : List TickInput :=
  List.replicate 4 ⟨false, 0, 0, 1/2⟩ ++ [⟨true, 12, 9, 0⟩, ⟨true, 5, 2, 0⟩] ++
    List.replicate 7 ⟨false, 0, 0, 3/10⟩

/-!  The horizontal-movement input normalization of `Game_onUpdate`
(src/main.c lines 2157-2186), over the reals: the raw axis from the four
directional flags, the magnitude `sqrt(x^2+z^2)`, the conditional
normalization, the yaw rotation, and the per-tick acceleration
contribution scaled by `deltaSeconds * PLAYER_MAX_SPEED`. -/

/-- A C boolean used as a float: `flag ? 1.0f : 0`. -/
noncomputable def boolFloat (b : Bool) : ℝ := if b then 1 else 0

/-- The raw input axis `(right - left, forward - backwards)`. -/
noncomputable def axisFromInput (fwd back left right : Bool) : ℝ × ℝ :=
  (boolFloat right - boolFloat left, boolFloat fwd - boolFloat back)

/-- `newAxisAccerlation = sqrt(pow(x,2) + pow(z,2))` from the C source. -/
noncomputable def newAxisAccerlation (v : ℝ × ℝ) : ℝ :=
  Real.sqrt (v.1 ^ 2 + v.2 ^ 2)

/-- The conditional normalization: both components are divided by the
magnitude exactly when `fabsf(magnitude) > 1`. -/
noncomputable def normalizeAxis (v : ℝ × ℝ) : ℝ × ℝ :=
  if |newAxisAccerlation v| > 1 then
    (v.1 / newAxisAccerlation v, v.2 / newAxisAccerlation v)
  else v

/-- `Common_degToRad` from the C source, with its `PI` constant. -/
noncomputable def Common_degToRad (deg : ℝ) : ℝ := deg * (3.1415926 / 180)

/-- The camera-relative rotation of the normalized axis by the player yaw
(src/main.c lines 2175-2180). -/
noncomputable def rotateByYaw (yaw : ℝ) (v : ℝ × ℝ) : ℝ × ℝ :=
  (v.1 * Real.cos (Common_degToRad yaw) - v.2 * Real.sin (Common_degToRad yaw),
   v.2 * Real.cos (Common_degToRad yaw) + v.1 * Real.sin (Common_degToRad yaw))

/-- `PLAYER_MAX_SPEED` from the C source (0.2). -/
def PLAYER_MAX_SPEED : ℚ := 1/5

/-- The acceleration contribution one tick adds to the player's horizontal
acceleration, for the given input flags, yaw and `deltaSeconds`. -/
noncomputable def accContribution (fwd back left right : Bool) (yaw δ : ℝ) : ℝ × ℝ :=
  let a := rotateByYaw yaw (normalizeAxis (axisFromInput fwd back left right))
  (a.1 * (δ * (PLAYER_MAX_SPEED : ℝ)), a.2 * (δ * (PLAYER_MAX_SPEED : ℝ)))

/-- Euclidean magnitude of a 2D vector. -/
noncomputable def magnitude (v : ℝ × ℝ) : ℝ := Real.sqrt (v.1 ^ 2 + v.2 ^ 2)

/-!  Helper lemmas. -/

/-- `roundq` expressed with the mathematical floor function. -/
theorem roundq_eq (q : ℚ) : roundq q = if 0 ≤ q then ⌊q + 1/2⌋ else -⌊-q + 1/2⌋ := by
  unfold roundq
  rw [Rat.floor_def', Rat.floor_def', ← Rat.floor_def, ← Rat.floor_def]

/-- Rounding an integer-valued coordinate returns that integer. -/
theorem roundq_intCast (n : Int) : roundq (n : ℚ) = n := by
  rw [roundq_eq]
  rcases le_or_lt 0 ((n : ℚ)) with h | h
  · rw [if_pos h, Int.floor_int_add]
    norm_num
  · rw [if_neg (not_le.mpr h)]
    have : (-(n : ℚ) + 1/2) = ((-n : Int) : ℚ) + 1/2 := by push_cast; ring
    rw [this, Int.floor_int_add]
    norm_num

/-- `roundq` is monotone. -/
theorem roundq_mono {a b : ℚ} (hab : a ≤ b) : roundq a ≤ roundq b := by
  rw [roundq_eq, roundq_eq]
  rcases le_or_lt 0 a with ha | ha <;> rcases le_or_lt 0 b with hb | hb
  · rw [if_pos ha, if_pos hb]
    exact Int.floor_le_floor (by linarith)
  · exact absurd (lt_of_le_of_lt (ha.trans hab) hb) (lt_irrefl 0)
  · rw [if_neg (not_le.mpr ha), if_pos hb]
    have h1 : -⌊-a + 1/2⌋ ≤ 0 := by
      have : (0 : Int) ≤ ⌊-a + 1/2⌋ := Int.floor_nonneg.mpr (by linarith)
      omega
    have h2 : (0 : Int) ≤ ⌊b + 1/2⌋ := Int.floor_nonneg.mpr (by linarith)
    omega
  · rw [if_neg (not_le.mpr ha), if_neg (not_le.mpr hb)]
    have : ⌊-b + 1/2⌋ ≤ ⌊-a + 1/2⌋ := Int.floor_le_floor (by linarith)
    omega

/-- A value strictly between two values that round to the same cell rounds
to that same cell. -/
theorem roundq_between {x ax : ℚ} {w : Int}
    (h1 : roundq (x - ax) = w) (h2 : roundq (x + ax) = w) : roundq x = w := by
  rcases le_or_lt 0 ax with h | h
  · have hl : x - ax ≤ x := by linarith
    have hr : x ≤ x + ax := by linarith
    have := roundq_mono hl
    have := roundq_mono hr
    omega
  · have hl : x + ax ≤ x := by linarith
    have hr : x ≤ x - ax := by linarith
    have := roundq_mono hl
    have := roundq_mono hr
    omega

/-- A single probe never decreases the item-state rank. -/
theorem probeTransition_rank (s : ItemState) (f : Field) :
    s.rank ≤ (probeTransition s f).rank := by
  cases s <;> cases f <;> decide

/-- Folding probes never decreases the item-state rank. -/
theorem probeAll_rank : ∀ (ps : List (Int × Int)) (s s2 : ItemState),
    probeAll s ps = some s2 → s.rank ≤ s2.rank := by
  intro ps
  induction ps with
  | nil =>
    intro s s2 h
    simp only [probeAll, Option.some.injEq] at h
    exact h ▸ le_refl _
  | cons p ps ih =>
    intro s s2 h
    unfold probeAll at h
    split at h
    · exact le_trans (probeTransition_rank _ _) (ih _ _ h)
    · exact absurd h (by simp)

/-- The `Dropped` state is absorbing under probes. -/
theorem probeAll_dropped : ∀ (ps : List (Int × Int)) (s2 : ItemState),
    probeAll ItemState.Dropped ps = some s2 → s2 = ItemState.Dropped := by
  intro ps s2 h
  have := probeAll_rank ps ItemState.Dropped s2 h
  cases s2 <;> simp [ItemState.rank] at this ⊢

/-- One tick never decreases the item-state rank. -/
theorem tickItem_rank (act : Bool) (ix iz : Int) (s s2 : ItemState)
    (h : tickItem act ix iz s = some s2) : s.rank ≤ s2.rank := by
  unfold tickItem at h
  split at h
  · exact probeAll_rank _ _ _ h
  · simp only [Option.some.injEq] at h
    exact h ▸ le_refl _

/-- The `Dropped` state is absorbing under ticks. -/
theorem tickItem_dropped (act : Bool) (ix iz : Int) (s2 : ItemState)
    (h : tickItem act ix iz ItemState.Dropped = some s2) : s2 = ItemState.Dropped := by
  have := tickItem_rank act ix iz ItemState.Dropped s2 h
  cases s2 <;> simp [ItemState.rank] at this ⊢

/-- A sequence of ticks never decreases the item-state rank. -/
theorem runItemTicks_rank : ∀ (l : List (Bool × Int × Int)) (s s2 : ItemState),
    runItemTicks l s = some s2 → s.rank ≤ s2.rank := by
  intro l
  induction l with
  | nil =>
    intro s s2 h
    simp only [runItemTicks, Option.some.injEq] at h
    exact h ▸ le_refl _
  | cons p rest ih =>
    intro s s2 h
    obtain ⟨act, ix, iz⟩ := p
    unfold runItemTicks at h
    split at h
    · exact le_trans (tickItem_rank _ _ _ _ _ (by assumption)) (ih _ _ h)
    · exact absurd h (by simp)

/-- Every probe of a completed probe fold returned a field. -/
theorem probeAll_mem_ok : ∀ (ps : List (Int × Int)) (s s2 : ItemState),
    probeAll s ps = some s2 →
    ∀ p ∈ ps, ∃ f, Game_getMapFieldByIndicies p.1 p.2 = FieldResult.ok f := by
  intro ps
  induction ps with
  | nil =>
    intro s s2 h p hp
    exact absurd hp (List.not_mem_nil p)
  | cons q ps ih =>
    intro s s2 h p hp
    unfold probeAll at h
    split at h
    · rename_i f hf
      rcases List.mem_cons.mp hp with rfl | hp2
      · exact ⟨f, hf⟩
      · exact ih _ _ h p hp2
    · exact absurd h (by simp)

set_option maxRecDepth 10000 in
/-- A lookup that returned a field passed the (buggy) guard and its flat
index landed inside the 165-element array. -/
theorem getByIndicies_ok_bounds {x z : Int} {f : Field}
    (h : Game_getMapFieldByIndicies x z = FieldResult.ok f) :
    0 ≤ x ∧ x ≤ 15 ∧ 0 ≤ z ∧ z ≤ 11 ∧ x * 11 + z ≤ 164 := by
  unfold Game_getMapFieldByIndicies at h
  split_ifs at h with hguard
  simp only [mapWidth, mapDepth, not_or, not_lt] at hguard
  obtain ⟨hx0, hx1, hz0, hz1⟩ := hguard
  unfold readMapFlat at h
  split_ifs at h with hidx
  cases hg : gameMap.get? (x * mapDepth + z).toNat with
  | none =>
    rw [hg] at h
    exact absurd h (by simp)
  | some f2 =>
    have hlt : (x * mapDepth + z).toNat < gameMap.length := by
      by_contra hc
      push_neg at hc
      rw [List.get?_eq_none.mpr hc] at hg
      exact Option.noConfusion hg
    have hlen : gameMap.length = 165 := by decide
    rw [hlen] at hlt
    simp only [mapDepth] at hidx hlt
    omega

/-- One tick preserves the brightness invariant: brightness at most 1, and
non-negative unless the state is `Dropped`. -/
theorem gameTick_inv (inp : TickInput) (st st2 : ItemState × ℚ)
    (hd : 0 ≤ inp.delta)
    (h1 : st.2 ≤ 1) (h2 : st.1 ≠ ItemState.Dropped → 0 ≤ st.2)
    (h : gameTick inp st = some st2) :
    st2.2 ≤ 1 ∧ (st2.1 ≠ ItemState.Dropped → 0 ≤ st2.2) := by
  obtain ⟨s, b⟩ := st
  dsimp only at h1 h2
  cases s with
  | Initial =>
    have hb0 : 0 ≤ b := h2 (by simp)
    have hb2 : 0 ≤ (if b < 1 then cMIN 1 (b + FADEOUT_SPEED * inp.delta) else b) ∧
        (if b < 1 then cMIN 1 (b + FADEOUT_SPEED * inp.delta) else b) ≤ 1 := by
      simp only [cMIN, FADEOUT_SPEED]
      split_ifs <;> constructor <;> linarith
    simp only [gameTick, brightnessStep] at h
    split at h
    · simp only [Option.some.injEq] at h
      subst h
      exact ⟨hb2.2, fun _ => hb2.1⟩
    · exact absurd h (by simp)
  | Held =>
    have hb0 : 0 ≤ b := h2 (by simp)
    simp only [gameTick, brightnessStep] at h
    split at h
    · simp only [Option.some.injEq] at h
      subst h
      exact ⟨h1, fun _ => hb0⟩
    · exact absurd h (by simp)
  | Dropped =>
    by_cases hbpos : b > 0
    · rcases htick : tickItem inp.act inp.ix inp.iz ItemState.Dropped with _ | s2
      · simp only [gameTick, brightnessStep, if_pos hbpos, htick] at h
        exact Option.noConfusion h
      · simp only [gameTick, brightnessStep, if_pos hbpos, htick,
          Option.some.injEq] at h
        subst h
        have hs2 : s2 = ItemState.Dropped := tickItem_dropped _ _ _ _ htick
        have hle : b - FADEOUT_SPEED * inp.delta ≤ 1 := by
          simp only [FADEOUT_SPEED]
          linarith
        exact ⟨hle, fun hne => absurd hs2 hne⟩
    · simp only [gameTick, brightnessStep, if_neg hbpos] at h
      exact Option.noConfusion h

/-- Sequences of ticks preserve the brightness invariant. -/
theorem runGame_inv : ∀ (l : List TickInput) (st st2 : ItemState × ℚ),
    (∀ inp ∈ l, 0 ≤ inp.delta) →
    st.2 ≤ 1 → (st.1 ≠ ItemState.Dropped → 0 ≤ st.2) →
    runGame l st = some st2 →
    st2.2 ≤ 1 ∧ (st2.1 ≠ ItemState.Dropped → 0 ≤ st2.2) := by
  intro l
  induction l with
  | nil =>
    intro st st2 _ ha hb h
    simp only [runGame, Option.some.injEq] at h
    subst h
    exact ⟨ha, hb⟩
  | cons inp rest ih =>
    intro st st2 hds ha hb h
    unfold runGame at h
    split at h
    · rename_i stm heq
      have hinv := gameTick_inv inp st stm (hds inp (by simp)) ha hb heq
      exact ih stm st2 (fun i hi => hds i (by simp [hi])) hinv.1 hinv.2 h
    · exact Option.noConfusion h

/-- `cMIN 1` of a value that is at least 1 is 1. -/
theorem cMIN_of_ge {a : ℚ} (h : 1 ≤ a) : cMIN 1 a = 1 := by
  unfold cMIN
  split_ifs <;> linarith

/-- `cMIN 1` of a value below 1 is that value. -/
theorem cMIN_of_lt {a : ℚ} (h : a < 1) : cMIN 1 a = a := by
  unfold cMIN
  split_ifs <;> linarith

/-- Closed form of the fade-in: along interact-free ticks the brightness
follows the clamp of `fadeSpeed` times the elapsed time. -/
theorem runGame_fadeIn : ∀ (l : List TickInput) (σ : ℚ), 0 ≤ σ →
    (∀ inp ∈ l, inp.act = false ∧ 0 ≤ inp.delta) →
    runGame l (ItemState.Initial, cMIN 1 (FADEOUT_SPEED * σ)) =
      some (ItemState.Initial, cMIN 1 (FADEOUT_SPEED * (σ + sumDeltas l))) := by
  intro l
  induction l with
  | nil =>
    intro σ hσ h
    simp [runGame, sumDeltas]
  | cons inp rest ih =>
    intro σ hσ h
    obtain ⟨hact, hδ⟩ := h inp (by simp)
    have hrest : ∀ i ∈ rest, i.act = false ∧ 0 ≤ i.delta := fun i hi => h i (by simp [hi])
    have hF : FADEOUT_SPEED = (1/2 : ℚ) := rfl
    have htick : gameTick inp (ItemState.Initial, cMIN 1 (FADEOUT_SPEED * σ)) =
        some (ItemState.Initial, cMIN 1 (FADEOUT_SPEED * (σ + inp.delta))) := by
      simp only [gameTick, brightnessStep, tickItem, hact, if_neg Bool.false_ne_true,
        Option.some.injEq]
      by_cases hlt : FADEOUT_SPEED * σ < 1
      · rw [cMIN_of_lt hlt, if_pos hlt, mul_add]
      · push_neg at hlt
        rw [cMIN_of_ge hlt]
        have h2 : (1 : ℚ) ≤ FADEOUT_SPEED * (σ + inp.delta) := by
          rw [hF] at hlt ⊢
          nlinarith
        rw [if_neg (by norm_num), cMIN_of_ge h2]
    have hsum : sumDeltas (inp :: rest) = inp.delta + sumDeltas rest := by
      simp [sumDeltas]
    rw [hsum]
    show runGame (inp :: rest) _ = _
    unfold runGame
    rw [htick]
    have := ih (σ + inp.delta) (by linarith) hrest
    rw [← add_assoc]
    exact this

/-- The raw axis for forward and right held together is `(1, 1)`. -/
theorem axisFromInput_diag : axisFromInput true false false true = (1, 1) := by
  unfold axisFromInput boolFloat
  norm_num

/-- The raw axis for forward alone is `(0, 1)`. -/
theorem axisFromInput_fwd : axisFromInput true false false false = (0, 1) := by
  unfold axisFromInput boolFloat
  norm_num

/-- The diagonal axis is normalized: its magnitude `sqrt 2` exceeds 1. -/
theorem normalizeAxis_diag : normalizeAxis (1, 1) =
    (1 / Real.sqrt 2, 1 / Real.sqrt 2) := by
  unfold normalizeAxis newAxisAccerlation
  have harg : ((1:ℝ) ^ 2 + (1:ℝ) ^ 2) = 2 := by norm_num
  rw [if_pos]
  · norm_num [harg]
  · dsimp only
    rw [harg]
    have h2 : (1:ℝ) < Real.sqrt 2 := by
      have : Real.sqrt 1 < Real.sqrt 2 := Real.sqrt_lt_sqrt (by norm_num) (by norm_num)
      simpa using this
    rw [abs_of_nonneg (Real.sqrt_nonneg 2)]
    exact h2

/-- The single-axis input is left alone: its magnitude is exactly 1. -/
theorem normalizeAxis_fwd : normalizeAxis (0, 1) = (0, 1) := by
  unfold normalizeAxis newAxisAccerlation
  rw [if_neg]
  dsimp only
  have harg : ((0:ℝ) ^ 2 + (1:ℝ) ^ 2) = 1 := by norm_num
  rw [harg, Real.sqrt_one]
  norm_num

/-!  The claims. -/

set_option maxHeartbeats 4000000 in
/-- Claim C1: for every player cell (no restriction), an interact tick
either aborts (a probe terminates the process or reads outside the array)
or completes with exactly the claimed transition: from `Initial` it ends
`Held` exactly when some probed cell of the 3x3 block is an `Item` cell,
from `Held` it ends `Dropped` exactly when some probed cell is a `Goal`
cell; and along every sequence of ticks and inputs the item state never
goes back from `Held` or `Dropped` to an earlier state. -/
theorem C1_itemStateMachine :
    (∀ ix iz : Int,
      interactionStep ItemState.Initial ix iz =
          some (if blockHasField Field.Item ix iz then ItemState.Held
            else ItemState.Initial) ∨
        interactionStep ItemState.Initial ix iz = none) ∧
    (∀ ix iz : Int,
      interactionStep ItemState.Held ix iz =
          some (if blockHasField Field.Goal ix iz then ItemState.Dropped
            else ItemState.Held) ∨
        interactionStep ItemState.Held ix iz = none) ∧
    (∀ (l : List (Bool × Int × Int)) (s s2 : ItemState),
      runItemTicks l s = some s2 → s.rank ≤ s2.rank) := by
  have key : ∀ (s : ItemState) (ix iz : Int), ∀ s2,
      interactionStep s ix iz = some s2 →
      1 ≤ ix ∧ ix ≤ 13 ∧ 1 ≤ iz ∧ iz ≤ 10 ∧ (ix + 1) * 11 + (iz + 1) ≤ 164 := by
    intro s ix iz s2 hs2
    unfold interactionStep at hs2
    have hmem := probeAll_mem_ok _ _ _ hs2
    obtain ⟨f1, hf1⟩ := hmem (ix - 1, iz - 1) (by simp [probeList])
    obtain ⟨f9, hf9⟩ := hmem (ix + 1, iz + 1) (by simp [probeList])
    have hb1 := getByIndicies_ok_bounds hf1
    have hb9 := getByIndicies_ok_bounds hf9
    omega
  refine ⟨?_, ?_, runItemTicks_rank⟩
  · intro ix iz
    cases hcase : interactionStep ItemState.Initial ix iz with
    | none => exact Or.inr rfl
    | some s2 =>
      left
      obtain ⟨h1, h2, h3, h4, h5⟩ := key ItemState.Initial ix iz s2 hcase
      rw [← hcase]
      clear hcase
      interval_cases ix <;> interval_cases iz <;> first | decide | omega
  · intro ix iz
    cases hcase : interactionStep ItemState.Held ix iz with
    | none => exact Or.inr rfl
    | some s2 =>
      left
      obtain ⟨h1, h2, h3, h4, h5⟩ := key ItemState.Held ix iz s2 hcase
      rw [← hcase]
      clear hcase
      interval_cases ix <;> interval_cases iz <;> first | decide | omega

/-- Witness for C1 at the item cell (12,9), at (12,10) whose probe block
wraps through the buggy guard yet still completes, at the goal cell (5,2),
and for a one-tick interact sequence. -/
theorem C1_witness :
    interactionStep ItemState.Initial 12 9 = some ItemState.Held ∧
    interactionStep ItemState.Initial 12 10 = some ItemState.Held ∧
    interactionStep ItemState.Held 5 2 = some ItemState.Dropped ∧
    ItemState.rank ItemState.Initial ≤ ItemState.rank ItemState.Held := by
  refine ⟨?_, ?_, ?_, ?_⟩
  · have h := (C1_itemStateMachine.1 12 9).resolve_right (by decide)
    rw [h]
    decide
  · have h := (C1_itemStateMachine.1 12 10).resolve_right (by decide)
    rw [h]
    decide
  · have h := (C1_itemStateMachine.2.1 5 2).resolve_right (by decide)
    rw [h]
    decide
  · exact C1_itemStateMachine.2.2 [(true, 12, 9)] ItemState.Initial ItemState.Held
      (by decide)

/-- Claim C2 (amended): the candidate position is committed exactly when
the field found at it has ordinal at most 0, a rejected move inverts the
horizontal acceleration and applies one step of it; and whenever the
player's current rounded cell differs from the Wall cell the move was
heading to, the committed position's rounded cell also differs from that
Wall cell.  (If the player's current cell already is that Wall cell — a
state only a previous unchecked bounce commit can create — the bounced
position may stay inside it, which is the corrected part.) -/
theorem C2_collisionResolution :
    ∀ x z ax az : ℚ, ∀ f : Field,
    Game_getMapFieldByPosition (x + ax) (z + az) = FieldResult.ok f →
    ((f.ordinal ≤ 0 → collisionStep x z ax az = some (x + ax, z + az, ax, az)) ∧
     (0 < f.ordinal → collisionStep x z ax az = some (x + -ax, z + -az, -ax, -az)) ∧
     (f = Field.Wall →
       Game_getMapFieldIndiciesByPosition x z ≠
         Game_getMapFieldIndiciesByPosition (x + ax) (z + az) →
       ∀ cx cz vx vz : ℚ, collisionStep x z ax az = some (cx, cz, vx, vz) →
         Game_getMapFieldIndiciesByPosition cx cz ≠
           Game_getMapFieldIndiciesByPosition (x + ax) (z + az))) := by
  intro x z ax az f hview
  refine ⟨fun hord => ?_, fun hord => ?_, fun hWall hne cx cz vx vz hstep => ?_⟩
  · unfold collisionStep
    dsimp only
    rw [hview]
    dsimp only
    rw [if_pos hord]
  · unfold collisionStep
    dsimp only
    rw [hview]
    dsimp only
    rw [if_neg (not_le.mpr hord)]
  · subst hWall
    unfold collisionStep at hstep
    dsimp only at hstep
    rw [hview] at hstep
    dsimp only at hstep
    rw [if_neg (by decide : ¬ (Field.ordinal Field.Wall ≤ 0))] at hstep
    simp only [Option.some.injEq, Prod.mk.injEq] at hstep
    obtain ⟨rfl, rfl, rfl, rfl⟩ := hstep
    intro hcontra
    apply hne
    unfold Game_getMapFieldIndiciesByPosition at hcontra ⊢
    simp only [Prod.mk.injEq] at hcontra ⊢
    obtain ⟨hcx, hcz⟩ := hcontra
    rw [← sub_eq_add_neg] at hcx hcz
    exact ⟨roundq_between hcx rfl, roundq_between hcz rfl⟩

/-- Counterexample to C2 as stated: with the player already inside the Wall
cell (2,2) (reachable because a rejected move commits its bounce position
without any collision check), a tick that moves toward that same Wall cell
commits a position whose rounded cell is exactly that Wall cell. -/
theorem C2_counterexample :
    Game_getMapFieldByPosition (2 + 1/10) (2 + 0) = FieldResult.ok Field.Wall ∧
    collisionStep 2 2 (1/10) 0 = some (2 + -(1/10), 2 + -(0:ℚ), -(1/10), -(0:ℚ)) ∧
    Game_getMapFieldIndiciesByPosition (2 + -(1/10)) (2 + -(0:ℚ)) =
      Game_getMapFieldIndiciesByPosition (2 + 1/10) (2 + 0) := by
  have h1 : roundq (2 + 1/10) = 2 := by rw [roundq_eq]; norm_num
  have h2 : roundq (2 + (0:ℚ)) = 2 := by rw [roundq_eq]; norm_num
  have h3 : roundq (2 + -(1/10)) = 2 := by rw [roundq_eq]; norm_num
  have h4 : roundq (2 + -(0:ℚ)) = 2 := by rw [roundq_eq]; norm_num
  have hview : Game_getMapFieldByPosition (2 + 1/10) (2 + 0) =
      FieldResult.ok Field.Wall := by
    unfold Game_getMapFieldByPosition Game_getMapFieldIndiciesByPosition
    dsimp only
    rw [h1, h2]
    decide
  refine ⟨hview, ?_, ?_⟩
  · unfold collisionStep
    dsimp only
    rw [hview]
    dsimp only
    rw [if_neg (by decide : ¬ (Field.ordinal Field.Wall ≤ 0))]
  · unfold Game_getMapFieldIndiciesByPosition
    rw [h1, h2, h3, h4]

/-- Witness for C2 at the real map: from (1.3, 2), a small move commits
into the tile cell (1,2), a larger move toward the wall cell (2,2) is
rejected and bounces, and the bounced position does not round into (2,2). -/
theorem C2_witness :
    collisionStep (13/10) 2 (1/10) 0 = some (13/10 + 1/10, 2 + 0, 1/10, 0) ∧
    collisionStep (13/10) 2 (2/5) 0 =
      some (13/10 + -(2/5), 2 + -(0:ℚ), -(2/5), -(0:ℚ)) ∧
    Game_getMapFieldIndiciesByPosition (13/10 + -(2/5)) (2 + -(0:ℚ)) ≠
      Game_getMapFieldIndiciesByPosition (13/10 + 2/5) (2 + 0) := by
  have hr1 : roundq (13/10 + 1/10) = 1 := by rw [roundq_eq]; norm_num
  have hr2 : roundq (2 + (0:ℚ)) = 2 := by rw [roundq_eq]; norm_num
  have hr3 : roundq (13/10 + 2/5) = 2 := by rw [roundq_eq]; norm_num
  have hr4 : roundq (13/10 + -(2/5)) = 1 := by rw [roundq_eq]; norm_num
  have hr5 : roundq (2 + -(0:ℚ)) = 2 := by rw [roundq_eq]; norm_num
  have hr6 : roundq ((13/10 : ℚ)) = 1 := by rw [roundq_eq]; norm_num
  have hr7 : roundq ((2 : ℚ)) = 2 := by rw [roundq_eq]; norm_num
  have hv1 : Game_getMapFieldByPosition (13/10 + 1/10) (2 + 0) =
      FieldResult.ok Field.Tile := by
    unfold Game_getMapFieldByPosition Game_getMapFieldIndiciesByPosition
    dsimp only
    rw [hr1, hr2]
    decide
  have hv2 : Game_getMapFieldByPosition (13/10 + 2/5) (2 + 0) =
      FieldResult.ok Field.Wall := by
    unfold Game_getMapFieldByPosition Game_getMapFieldIndiciesByPosition
    dsimp only
    rw [hr3, hr2]
    decide
  have hne : Game_getMapFieldIndiciesByPosition (13/10) 2 ≠
      Game_getMapFieldIndiciesByPosition (13/10 + 2/5) (2 + 0) := by
    unfold Game_getMapFieldIndiciesByPosition
    rw [hr3, hr2, hr6, hr7]
    decide
  have hbounce := (C2_collisionResolution (13/10) 2 (2/5) 0 Field.Wall hv2).2.1
    (by decide)
  refine ⟨?_, hbounce, ?_⟩
  · exact (C2_collisionResolution (13/10) 2 (1/10) 0 Field.Tile hv1).1 (by decide)
  · exact (C2_collisionResolution (13/10) 2 (2/5) 0 Field.Wall hv2).2.2 rfl hne
      (13/10 + -(2/5)) (2 + -(0:ℚ)) (-(2/5)) (-(0:ℚ)) hbounce

/-- Claim C3 (amended): along every tick sequence with non-negative deltas
from `(AtRest, 0)`, the brightness never exceeds 1 and is non-negative
whenever the state is not `Delivered` (during the `Delivered` fade-out the
final decrement can undershoot 0, which is the corrected part); and along
interact-free ticks whose deltas sum to at least 2 seconds the brightness
reaches 1 exactly and stays there. -/
theorem C3_brightnessBounds :
    (∀ (l : List TickInput) (st2 : ItemState × ℚ),
      (∀ inp ∈ l, 0 ≤ inp.delta) →
      runGame l (ItemState.Initial, 0) = some st2 →
      st2.2 ≤ 1 ∧ (st2.1 ≠ ItemState.Dropped → 0 ≤ st2.2)) ∧
    (∀ (l : List TickInput) (st2 : ItemState × ℚ),
      (∀ inp ∈ l, inp.act = false ∧ 0 ≤ inp.delta) →
      2 ≤ sumDeltas l →
      runGame l (ItemState.Initial, 0) = some st2 →
      st2 = (ItemState.Initial, 1)) := by
  constructor
  · intro l st2 hd h
    exact runGame_inv l (ItemState.Initial, 0) st2 hd (by norm_num)
      (fun _ => le_refl 0) h
  · intro l st2 hall hsum h
    have h0 : cMIN 1 (FADEOUT_SPEED * 0) = 0 := by
      unfold cMIN FADEOUT_SPEED
      norm_num
    have hrun := runGame_fadeIn l 0 (le_refl 0) hall
    rw [h0] at hrun
    rw [hrun] at h
    have hone : cMIN 1 (FADEOUT_SPEED * (0 + sumDeltas l)) = 1 := by
      apply cMIN_of_ge
      unfold FADEOUT_SPEED
      linarith
    rw [hone] at h
    exact (Option.some.inj h).symm

/-- Counterexample to C3 as stated: a play-through with non-negative
deltas (0.5 s fade-in ticks, two interact ticks, 0.3 s fade-out ticks)
whose final brightness is -1/20, strictly below 0. -/
theorem C3_counterexample :
    runGame c3trace (ItemState.Initial, 0) = some (ItemState.Dropped, -(1/20)) ∧
    (-(1/20) : ℚ) < 0 := by
  constructor
  · have h1 : interactionStep ItemState.Initial 12 9 = some ItemState.Held := by
      decide
    have h2 : interactionStep ItemState.Held 5 2 = some ItemState.Dropped := by
      decide
    norm_num [c3trace, runGame, gameTick, brightnessStep, tickItem, cMIN,
      FADEOUT_SPEED, List.replicate, h1, h2]
  · norm_num

/-- Witness for C3 at a concrete two-tick idle sequence summing to 2
seconds. -/
theorem C3_witness :
    (1 : ℚ) ≤ 1 ∧ (ItemState.Initial, (1 : ℚ)) = (ItemState.Initial, 1) := by
  have hd : ∀ inp ∈ c3idle, 0 ≤ inp.delta := by
    intro inp hi
    simp only [c3idle, List.mem_cons, List.mem_singleton, List.not_mem_nil,
      or_false] at hi
    rcases hi with rfl | rfl <;> norm_num
  have hall : ∀ inp ∈ c3idle, inp.act = false ∧ 0 ≤ inp.delta := by
    intro inp hi
    simp only [c3idle, List.mem_cons, List.mem_singleton, List.not_mem_nil,
      or_false] at hi
    rcases hi with rfl | rfl <;> exact ⟨rfl, by norm_num⟩
  have hrun : runGame c3idle (ItemState.Initial, 0) =
      some (ItemState.Initial, 1) := by
    norm_num [c3idle, runGame, gameTick, brightnessStep, tickItem, cMIN,
      FADEOUT_SPEED]
  constructor
  · exact (C3_brightnessBounds.1 c3idle (ItemState.Initial, 1) hd hrun).1
  · exact C3_brightnessBounds.2 c3idle (ItemState.Initial, 1) hall
      (by norm_num [sumDeltas, c3idle]) hrun

/-- Claim C4 is a code bug: the bounds check of `Game_getMapFieldByIndicies`
uses `>` where the claim (and the function's own doc comment) require `>=`.
At (0,11), with 11 outside [0, depth), the lookup silently returns the Wall
stored at flat index 11 instead of terminating; at (15,0), with 15 outside
[0, width), it reads past the end of the array; negative indices do
terminate. -/
theorem C4_boundsCheckOffByOne :
    Game_getMapFieldByIndicies 0 11 = FieldResult.ok Field.Wall ∧
    Game_getMapFieldByIndicies 15 0 = FieldResult.ubRead ∧
    Game_getMapFieldByIndicies (-1) 0 = FieldResult.terminated ∧
    Game_getMapFieldByIndicies 0 (-1) = FieldResult.terminated ∧
    ¬ ((11 : Int) < mapDepth) ∧ ¬ ((15 : Int) < mapWidth) := by
  exact ⟨by decide, by decide, by decide, by decide, by decide, by decide⟩

/-- Claim C5 is a code bug: `Game_getMapFieldByPosition` never terminates
the process — no input can produce the `terminated` outcome, because the
function reads the map array directly instead of delegating to the
bounds-checked lookup; the out-of-bounds position (-2, 0) yields an
out-of-bounds array read instead of a fatal error. -/
theorem C5_positionLookupUnchecked :
    (∀ x z : ℚ, (Game_getMapFieldByPosition x z == FieldResult.terminated) = false) ∧
    Game_getMapFieldByPosition (-2) 0 = FieldResult.ubRead := by
  constructor
  · intro x z
    simp only [Game_getMapFieldByPosition, readMapFlat]
    split
    · rfl
    · split <;> rfl
  · have hx : roundq ((-2 : ℚ)) = -2 := by rw [roundq_eq]; norm_num
    have hz : roundq ((0 : ℚ)) = 0 := by rw [roundq_eq]; norm_num
    unfold Game_getMapFieldByPosition Game_getMapFieldIndiciesByPosition
    dsimp only
    rw [hx, hz]
    decide

/-- Claim C6 (amended): load validation rejects every grid whose length is
not width times depth and every grid without a Spawn cell; a grid that
passes has at least one Spawn cell and the player is placed on the first
one in scan order.  (Grids with more than one Spawn cell are not rejected,
which is the corrected part.) -/
theorem C6_loadValidation :
    (∀ (w d : Nat) (grid : List Field), grid.length ≠ w * d →
      Game_onLoad_validate w d grid = none) ∧
    (∀ (w d : Nat) (grid : List Field), Field.Init ∉ grid →
      Game_onLoad_validate w d grid = none) ∧
    (∀ (w d : Nat) (grid : List Field) (p : Nat × Nat),
      Game_onLoad_validate w d grid = some p →
      grid.length = w * d ∧ grid.get? (p.1 * d + p.2) = some Field.Init) := by
  refine ⟨?_, ?_, ?_⟩
  · intro w d grid h
    unfold Game_onLoad_validate
    rw [if_pos h]
  · intro w d grid hmem
    unfold Game_onLoad_validate
    split_ifs with hlen
    · rfl
    · cases hfs : firstSpawn w d grid with
      | none => rfl
      | some p =>
        have hp := List.find?_some hfs
        have hget : grid.get? (p.1 * d + p.2) = some Field.Init :=
          of_decide_eq_true hp
        exact absurd (List.get?_mem hget) hmem
  · intro w d grid p h
    unfold Game_onLoad_validate at h
    split_ifs at h with hlen
    push_neg at hlen
    cases hfs : firstSpawn w d grid with
    | none =>
      rw [hfs] at h
      exact Option.noConfusion h
    | some q =>
      rw [hfs] at h
      have hq := List.find?_some hfs
      obtain rfl : q = p := Option.some.inj h
      exact ⟨hlen, of_decide_eq_true hq⟩

/-- Counterexample to C6 as stated: a 1-by-2 grid consisting of two Spawn
cells passes validation (returning the first one) although the claim
requires every grid with more than one Spawn cell to be rejected. -/
theorem C6_counterexample :
    Game_onLoad_validate 1 2 [Field.Init, Field.Init] = some (0, 0) ∧
    ([Field.Init, Field.Init].count Field.Init) = 2 := by
  constructor <;> decide

set_option maxRecDepth 10000 in
/-- Witness for C6: an empty grid fails the length check, a spawn-free grid
fails the spawn search, and the embedded game map passes with the player
placed on the single `Init` cell (7,1). -/
theorem C6_witness :
    Game_onLoad_validate 1 1 [] = none ∧
    Game_onLoad_validate 1 2 [Field.Tile, Field.Wall] = none ∧
    (gameMap.length = 15 * 11 ∧ gameMap.get? (7 * 11 + 1) = some Field.Init) := by
  refine ⟨?_, ?_, ?_⟩
  · exact C6_loadValidation.1 1 1 [] (by decide)
  · exact C6_loadValidation.2.1 1 2 [Field.Tile, Field.Wall] (by simp)
  · exact C6_loadValidation.2.2 15 11 gameMap (7, 1) (by decide)

/-- Claim C7: for every valid grid index pair, converting the indices to a
world position and looking that position up again gives the same result as
the direct indexed lookup. -/
theorem C7_lookupRoundTrip :
    ∀ ix iz : Int, 0 ≤ ix → ix < mapWidth → 0 ≤ iz → iz < mapDepth →
    Game_getMapFieldByPosition (Game_getMapFieldPositionByIndicies ix iz).1
      (Game_getMapFieldPositionByIndicies ix iz).2 =
      Game_getMapFieldByIndicies ix iz := by
  intro ix iz h1 h2 h3 h4
  have hguard : ¬ (ix < 0 ∨ ix > mapWidth ∨ iz < 0 ∨ iz > mapDepth) := by
    simp only [mapWidth, mapDepth] at h2 h4 ⊢
    omega
  unfold Game_getMapFieldByPosition Game_getMapFieldPositionByIndicies
    Game_getMapFieldIndiciesByPosition Game_getMapFieldByIndicies
  simp only [roundq_intCast]
  rw [if_neg hguard]

/-- Witness for C7 at the index pair (3,4). -/
theorem C7_witness :
    Game_getMapFieldByPosition (Game_getMapFieldPositionByIndicies 3 4).1
      (Game_getMapFieldPositionByIndicies 3 4).2 =
      Game_getMapFieldByIndicies 3 4 :=
  C7_lookupRoundTrip 3 4 (by decide) (by decide) (by decide) (by decide)

/-- Claim C8: for every yaw and every `deltaSeconds`, the acceleration
contribution of a tick with forward and right held has the same magnitude
as the contribution of a tick with forward alone, because the diagonal
axis is normalized to unit length and the yaw rotation preserves
magnitudes. -/
theorem C8_diagonalNormalized : ∀ yaw δ : ℝ,
    magnitude (accContribution true false false true yaw δ) =
    magnitude (accContribution true false false false yaw δ) := by
  intro yaw δ
  unfold accContribution
  rw [axisFromInput_diag, axisFromInput_fwd, normalizeAxis_diag, normalizeAxis_fwd]
  unfold magnitude rotateByYaw
  dsimp only
  congr 1
  have hsc : Real.sin (Common_degToRad yaw) ^ 2 +
      Real.cos (Common_degToRad yaw) ^ 2 = 1 := Real.sin_sq_add_cos_sq _
  have h2 : Real.sqrt 2 ^ 2 = 2 := Real.sq_sqrt (by norm_num)
  have hne : Real.sqrt 2 ≠ 0 := by positivity
  field_simp
  nlinarith [hsc, h2]

/-- Claim C9 (amended): from brightness 0 in state `AtRest`, 34 ticks of
30 ms at fade speed 0.5 per second yield brightness 51/100 — not at least
1 as the claim states — and 67 such ticks (just over the 2 seconds the
ramp needs) are what reaches the clamped value 1. -/
theorem C9_fadeInTicks :
    runGame (List.replicate 34 tick003) (ItemState.Initial, 0) =
      some (ItemState.Initial, 51/100) ∧
    runGame (List.replicate 67 tick003) (ItemState.Initial, 0) =
      some (ItemState.Initial, 1) := by
  constructor <;>
    norm_num [runGame, gameTick, brightnessStep, tickItem, cMIN, FADEOUT_SPEED,
      tick003, List.replicate]

/-- Counterexample to C9 as stated: after 34 ticks of 30 ms the brightness
is 51/100, which is strictly below 1. -/
theorem C9_counterexample :
    runGame (List.replicate 34 tick003) (ItemState.Initial, 0) =
      some (ItemState.Initial, 51/100) ∧ (51/100 : ℚ) < 1 := by
  constructor
  · norm_num [runGame, gameTick, brightnessStep, tickItem, cMIN, FADEOUT_SPEED,
      tick003, List.replicate]
  · norm_num

/-- Claim C10: the position-to-index conversion rounds half away from
zero — every coordinate `k + 1/2` with natural `k` maps to index `k + 1`
and `-(k + 1/2)` maps to `-(k + 1)` — and the same conversion is the one
used by the collision lookup (`Game_getMapFieldByPosition`) and by the
interaction step's player-cell computation. -/
theorem C10_roundHalfAwayFromZero :
    (∀ k : Nat,
      Game_getMapFieldIndiciesByPosition ((k : ℚ) + 1/2) (-((k : ℚ) + 1/2)) =
        ((k : Int) + 1, -((k : Int) + 1))) ∧
    (∀ x z : ℚ, Game_getMapFieldByPosition x z =
      readMapFlat ((Game_getMapFieldIndiciesByPosition x z).1 * mapDepth +
        (Game_getMapFieldIndiciesByPosition x z).2)) ∧
    (∀ (s : ItemState) (x z : ℚ), interactionTick s x z =
      interactionStep s (Game_getMapFieldIndiciesByPosition x z).1
        (Game_getMapFieldIndiciesByPosition x z).2) := by
  refine ⟨?_, fun _ _ => rfl, fun _ _ _ => rfl⟩
  intro k
  unfold Game_getMapFieldIndiciesByPosition
  have hpos : (0:ℚ) < (k : ℚ) + 1/2 := by positivity
  have hx : roundq ((k : ℚ) + 1/2) = (k : Int) + 1 := by
    rw [roundq_eq, if_pos (le_of_lt hpos)]
    have harg : ((k:ℚ) + 1/2) + 1/2 = (((k:Int) + 1 : Int) : ℚ) := by
      push_cast
      ring
    rw [harg, Int.floor_intCast]
  have hz : roundq (-((k : ℚ) + 1/2)) = -((k : Int) + 1) := by
    rw [roundq_eq, if_neg (by linarith)]
    have harg : -(-((k:ℚ) + 1/2)) + 1/2 = (((k:Int) + 1 : Int) : ℚ) := by
      push_cast
      ring
    rw [harg, Int.floor_intCast]
  rw [hx, hz]

end GemQuest